import Mathlib

/-!
Verification of the slice-and-dice treemap layout implemented in this
repository (files treemap.go and tmap.go).

The two Go files implement the same layout recursion.  tmap.go works on the
concrete JSON tree type TNode and aggregates weights with the size method;
treemap.go works on the TreeMapper interface and reads each node's weight
from its Weight method.  The command adapter shown in the README listing
implements TreeMapper for the same TNode shape and aggregates with its Weight
method (the sum of the leaf sizes of the subtree).  All three are embedded
below:

* Go float64 arithmetic on weights and proportions is modelled by exact
  rational arithmetic (ℚ).  Every concrete input used in a theorem keeps the
  float computation exact or far from a rounding boundary, so the ℚ model and
  the float64 program agree on those inputs.
* Go int values (coordinates, depths) are modelled by ℤ, and Go's float64 to
  int conversion (truncation toward zero) by goInt.
* The svg drawing calls are modelled by returning the list of drawNode
  emissions in emission order.  drawNode in tmap.go receives the bound, the
  orientation, a color string and the depth; the cosmetic color argument (a
  deterministic byte-mix of the parent weight and the proportion, used by no
  layout decision and no claim) is not modelled, the rest is recorded in
  DrawCmd.
-/

namespace Treemap

/-- Orientation is the direction to start a slice (treemap.go 54-63, the
HORIZONTAL and VERTICAL constants of tmap.go 54-59). Only the two valid
values occur in either program. -/
inductive Orientation where
  | horizontal
  | vertical
  deriving DecidableEq

/-- Next orientation for the children: tmap.go 123-128 maps VERTICAL to
HORIZONTAL and everything else to VERTICAL; treemap.go 87-90 maps Horizontal
to Vertical and everything else to Horizontal.  On the two valid values both
compute this flip. -/
def nextOrientationOf : Orientation → Orientation
  | .vertical => .horizontal
  | .horizontal => .vertical

/-- A point of Go's image package: integer x and y. -/
structure Point where
  X : Int
  Y : Int
  deriving DecidableEq

/-- An axis-aligned rectangle of Go's image package, given by its Min and Max
corner points. -/
structure Rectangle where
  Min : Point
  Max : Point
  deriving DecidableEq

/-- Width of a rectangle, image.Rectangle.Dx. -/
def Rectangle.Dx (r : Rectangle) : Int := r.Max.X - r.Min.X

/-- Height of a rectangle, image.Rectangle.Dy. -/
def Rectangle.Dy (r : Rectangle) : Int := r.Max.Y - r.Min.Y

/-- Go's image.Rect(x0, y0, x1, y1): the corners are swapped where needed so
that the rectangle is well formed. -/
def imageRect (x0 y0 x1 y1 : Int) : Rectangle :=
  ⟨⟨min x0 x1, min y0 y1⟩, ⟨max x0 x1, max y0 y1⟩⟩

/-- Go's conversion from float64 to int truncates toward zero.  The layout
code applies it to consumed+0.5 and proportion+0.5, so on the non-negative
values arising from validated inputs it is the floor. -/
def goInt (q : ℚ) : Int := if 0 ≤ q then ⌊q⌋ else ⌈q⌉

/-- TNode is a treemap node (tmap.go 66-75).  The render-state fields color,
orientation, depth and bound are not part of the data; they are threaded
through the layout recursion below exactly as the parent writes them before
each recursive call. -/
structure TNode where
  Name : String
  Size : ℚ
  Children : List TNode

mutual
/-- Embeds (*TNode).size (tmap.go 105-111): each([]*TNode{t}, sum += n.Size)
sums the Size field over the node itself and every descendant. -/
def TNode.size : TNode → ℚ
  | ⟨_, s, cs⟩ => s + sizeList cs
/-- Sum of TNode.size over a list of nodes: the recursion of the each helper
(tmap.go 202-214) specialised to the summing callback of size.  A nil and an
empty Children slice both contribute 0. -/
def sizeList : List TNode → ℚ
  | [] => 0
  | c :: cs => TNode.size c + sizeList cs
end

mutual
/-- Embeds (*TNode).Weight of the command adapter (README.md listing 71-85,
the TreeMapper implementation that treemap.DrawTreemap draws through).  Its
inner weight closure recurses into Children when the slice is non-nil and
adds Size only at childless nodes, so the accumulated sum is the sum of the
leaf sizes of the subtree: a leaf reports its own Size, an internal node the
sum of its children's Weight values, with its own declared Size ignored.
The adapter's TNode has the same fields as tmap.go's, so the one structure
serves both; a nil Children slice (the decoded form of a missing children
field, the adapter's leaf case) is the List [] here. -/
def TNode.Weight : TNode → ℚ
  | ⟨_, s, []⟩ => s
  | ⟨_, _, c :: cs⟩ => weightList (c :: cs)
/-- The loop of the weight closure over a children slice: the sum of the
recursive Weight of each entry. -/
def weightList : List TNode → ℚ
  | [] => 0
  | c :: cs => TNode.Weight c + weightList cs
end

/-- One drawNode emission (tmap.go 79-103): the node name, the bound, the
orientation and the depth stored on the node as it is drawn.  The cosmetic
color string is omitted. -/
structure DrawCmd where
  Name : String
  bound : Rectangle
  orientation : Orientation
  depth : Int
  deriving DecidableEq

/-- The proportion computed in the loop body (tmap.go 159 and 173,
treemap.go 119 and 133): weight over parent weight times the band length,
which is Dy for horizontal slicing and Dx for vertical slicing. -/
def proportionOf (o : Orientation) (b : Rectangle) (mSize w : ℚ) : ℚ :=
  match o with
  | .horizontal => w / mSize * ((b.Dy : Int) : ℚ)
  | .vertical => w / mSize * ((b.Dx : Int) : ℚ)

/-- The child bound computed in the loop body (tmap.go 160-166 and 174-180,
treemap.go 120-126 and 134-140).  Horizontal slicing keeps the x bounds and
stacks along y from Min.Y + int(consumed+0.5) with length
int(proportion+0.5); vertical slicing is symmetric along x. -/
def newBoundOf (o : Orientation) (b : Rectangle) (consumed proportion : ℚ) : Rectangle :=
  match o with
  | .horizontal =>
      ⟨⟨b.Min.X, b.Min.Y + goInt (consumed + 1/2)⟩,
       ⟨b.Max.X, b.Min.Y + goInt (consumed + 1/2) + goInt (proportion + 1/2)⟩⟩
  | .vertical =>
      ⟨⟨b.Min.X + goInt (consumed + 1/2), b.Min.Y⟩,
       ⟨b.Min.X + goInt (consumed + 1/2) + goInt (proportion + 1/2), b.Max.Y⟩⟩

mutual
/-- Embeds (*TNode).drawTree (tmap.go 113-199).  The node's stored depth,
orientation and bound fields are the parameters o, bound and depth; the guard
of tmap.go 116-118 returns an empty emission list, otherwise the loop over
Children runs with mSize = t.size() and consumed starting at 0. -/
def TNode.drawTree (t : TNode) (o : Orientation) (bound : Rectangle) (depth maxDepth : Int) :
    List DrawCmd :=
  if maxDepth ≠ 0 ∧ depth ≥ maxDepth then []
  else drawChildren t.Children t.size o bound depth maxDepth 0
termination_by sizeOf t
decreasing_by
  cases t
  simp

/-- The loop of tmap.go 130-198 from a given consumed accumulator on: each
child is emitted with its new bound, the flipped orientation and depth+1,
then drawn recursively, then the loop continues with consumed+proportion. -/
def drawChildren (cs : List TNode) (mSize : ℚ) (o : Orientation) (bound : Rectangle)
    (depth maxDepth : Int) (consumed : ℚ) : List DrawCmd :=
  match cs with
  | [] => []
  | c :: rest =>
    let proportion := proportionOf o bound mSize c.size
    let b := newBoundOf o bound consumed proportion
    ⟨c.Name, b, nextOrientationOf o, depth + 1⟩
      :: (TNode.drawTree c (nextOrientationOf o) b (depth + 1) maxDepth
          ++ drawChildren rest mSize o bound depth maxDepth (consumed + proportion))
termination_by sizeOf cs
decreasing_by
  all_goals simp
  all_goals omega
end

/-- A node of the TreeMapper interface of treemap.go 65-71: an identity, the
value its Weight method reports, and its ordered descendants. -/
structure TM where
  identity : String
  weight : ℚ
  descendants : List TM

/-- One drawNode emission of treemap.go 164-183: identity and bound (the
cosmetic color argument is omitted). -/
structure TMCmd where
  identity : String
  bound : Rectangle
  deriving DecidableEq

mutual
/-- Embeds drawTree of treemap.go 73-160: identical recursion to
(*TNode).drawTree, except that the parent weight is the node's own Weight()
and the emission carries only identity and bound. -/
def drawTree (t : TM) (path : Orientation) (bound : Rectangle) (depth maxDepth : Int) :
    List TMCmd :=
  if maxDepth ≠ 0 ∧ depth ≥ maxDepth then []
  else drawTMChildren t.descendants t.weight path bound depth maxDepth 0
termination_by sizeOf t
decreasing_by
  cases t
  simp

/-- The loop of treemap.go 92-159 from a given consumed accumulator on. -/
def drawTMChildren (cs : List TM) (parentWeight : ℚ) (path : Orientation) (bound : Rectangle)
    (depth maxDepth : Int) (consumed : ℚ) : List TMCmd :=
  match cs with
  | [] => []
  | c :: rest =>
    let proportion := proportionOf path bound parentWeight c.weight
    let newBound := newBoundOf path bound consumed proportion
    ⟨c.identity, newBound⟩
      :: (drawTree c (nextOrientationOf path) newBound (depth + 1) maxDepth
          ++ drawTMChildren rest parentWeight path bound depth maxDepth (consumed + proportion))
termination_by sizeOf cs
decreasing_by
  all_goals simp
  all_goals omega
end

/-- Embeds DrawTreemap (treemap.go 210-222): the root gets the canvas
rectangle image.Rect(0, 0, width, height), depth 0, the start orientation,
and the emitted node rectangles are those of drawTree (the surrounding svg
Start and End calls are pure output plumbing). -/
def DrawTreemap (tm : TM) (width height : Int) (startPath : Orientation) (maxDepth : Int) :
    List TMCmd :=
  drawTree tm startPath (imageRect 0 0 width height) 0 maxDepth

/-- Observer: the band length used at orientation o, Dy when slicing
horizontally and Dx when slicing vertically (spec 4.2 step 3). -/
def bandLength (o : Orientation) (b : Rectangle) : Int :=
  match o with
  | .horizontal => b.Dy
  | .vertical => b.Dx

/-- Observer: the drawNode emissions a call at the given depth makes for its
direct children, extracted from the full emission list by their stored depth
(a direct child is emitted at depth+1, every deeper node at depth+2 or
more). -/
def directCmds (cs : List TNode) (mSize : ℚ) (o : Orientation) (b : Rectangle)
    (dep maxD : Int) (consumed : ℚ) : List DrawCmd :=
  (drawChildren cs mSize o b dep maxD consumed).filter (fun d => d.depth == dep + 1)

/-- Observer: the consumed accumulator gathered by the first i loop
iterations, the sum of the first i proportions. -/
def consumedBefore (o : Orientation) (b : Rectangle) (mSize : ℚ) : List TNode → ℕ → ℚ
  | _, 0 => 0
  | [], _ + 1 => 0
  | c :: cs, i + 1 => proportionOf o b mSize c.size + consumedBefore o b mSize cs i

/-- The child rectangle exactly as the spec words it (4.2 step 5b): the
unaffected axis bounds are the parent's, the banding axis runs from
parent start + round(consumed) for round(proportion) units, with
round x = floor (x + 1/2).  Written from the spec, to be compared with
newBoundOf from the code. -/
def specChildBound (o : Orientation) (b : Rectangle) (cum p : ℚ) : Rectangle :=
  match o with
  | .horizontal =>
      ⟨⟨b.Min.X, b.Min.Y + round cum⟩, ⟨b.Max.X, b.Min.Y + round cum + round p⟩⟩
  | .vertical =>
      ⟨⟨b.Min.X + round cum, b.Min.Y⟩, ⟨b.Min.X + round cum + round p, b.Max.Y⟩⟩

/- Helper lemmas. -/

lemma nextOrientationOf_next (o : Orientation) : nextOrientationOf (nextOrientationOf o) = o := by
  cases o <;> rfl

lemma goInt_of_nonneg (q : ℚ) (h : 0 ≤ q) : goInt q = ⌊q⌋ := by
  rw [goInt, if_pos h]

lemma goInt_round (p : ℚ) (h : 0 ≤ p) : goInt (p + 1/2) = round p := by
  rw [goInt_of_nonneg _ (by linarith), round_eq]

lemma proportionOf_eq (o : Orientation) (b : Rectangle) (mSize w : ℚ) :
    proportionOf o b mSize w = w / mSize * ((bandLength o b : Int) : ℚ) := by
  cases o <;> rfl

lemma proportionOf_nonneg (o : Orientation) (b : Rectangle) (mSize w : ℚ)
    (hm : 0 < mSize) (hw : 0 ≤ w) (hL : 0 ≤ bandLength o b) :
    0 ≤ proportionOf o b mSize w := by
  rw [proportionOf_eq]
  exact mul_nonneg (div_nonneg hw hm.le) (by exact_mod_cast hL)

lemma bandLength_newBoundOf (o : Orientation) (b : Rectangle) (consumed p : ℚ) :
    bandLength o (newBoundOf o b consumed p) = goInt (p + 1/2) := by
  cases o <;> simp [bandLength, newBoundOf, Rectangle.Dy, Rectangle.Dx]

lemma sizeList_eq (cs : List TNode) : sizeList cs = (cs.map TNode.size).sum := by
  induction cs with
  | nil => simp [sizeList]
  | cons c rest ih => simp [sizeList, ih]

lemma weightList_eq (cs : List TNode) : weightList cs = (cs.map TNode.Weight).sum := by
  induction cs with
  | nil => simp [weightList]
  | cons c rest ih => simp [weightList, ih]

lemma newBoundOf_eq_specChildBound (o : Orientation) (b : Rectangle) (cum p : ℚ)
    (hcum : 0 ≤ cum) (hp : 0 ≤ p) :
    newBoundOf o b cum p = specChildBound o b cum p := by
  cases o <;> simp only [newBoundOf, specChildBound] <;>
    rw [goInt_round _ hcum, goInt_round _ hp]

lemma sizeOf_lt_of_mem_children {c t : TNode} (h : c ∈ t.Children) : sizeOf c < sizeOf t := by
  cases t with
  | mk nm s cs =>
    have h1 : sizeOf c < sizeOf cs := List.sizeOf_lt_of_mem h
    simp only [TNode.mk.sizeOf_spec]
    omega

/-- Invariant carried by every emission of drawChildren: the stored depth is
strictly below the call depth, bounded by maxDepth when maxDepth is nonzero,
and the stored orientation alternates with the stored depth.  The hypothesis
IH supplies the same invariant for the recursive drawTree calls on the list
elements. -/
lemma drawChildren_mem_aux (mSize : ℚ) (o : Orientation) (b : Rectangle) (dep maxD : Int)
    (hg : ¬(maxD ≠ 0 ∧ dep ≥ maxD)) :
    ∀ cs : List TNode,
      (∀ c ∈ cs, ∀ (o2 : Orientation) (b2 : Rectangle),
        ∀ d ∈ TNode.drawTree c o2 b2 (dep + 1) maxD,
          dep + 2 ≤ d.depth ∧ (maxD ≠ 0 → d.depth ≤ maxD) ∧
          d.orientation =
            if (d.depth - (dep + 1)) % 2 = 1 then nextOrientationOf o2 else o2) →
      ∀ consumed : ℚ, ∀ d ∈ drawChildren cs mSize o b dep maxD consumed,
        dep + 1 ≤ d.depth ∧ (maxD ≠ 0 → d.depth ≤ maxD) ∧
        d.orientation = if (d.depth - dep) % 2 = 1 then nextOrientationOf o else o := by
  intro cs
  induction cs with
  | nil =>
    intro _ consumed d hd
    simp [drawChildren] at hd
  | cons c rest ih =>
    intro IH consumed d hd
    rw [drawChildren] at hd
    simp only [List.mem_cons, List.mem_append] at hd
    rcases hd with hd | hd | hd
    · subst hd
      refine ⟨by simp, fun h0 => ?_, ?_⟩
      · have := not_and.mp hg h0
        simp only [DrawCmd.depth]
        omega
      · simp only [DrawCmd.orientation, DrawCmd.depth]
        rw [if_pos (by omega)]
    · have h := IH c (List.mem_cons_self c rest) (nextOrientationOf o) _ d hd
      refine ⟨by omega, h.2.1, ?_⟩
      rcases Int.emod_two_eq_zero_or_one (d.depth - (dep + 1)) with hk | hk
      · rw [h.2.2, if_neg (by omega), if_pos (by omega)]
      · rw [h.2.2, if_pos (by omega), if_neg (by omega), nextOrientationOf_next]
    · exact ih (fun x hx => IH x (List.mem_cons_of_mem c hx)) (consumed + _) d hd

/-- Invariant carried by every emission of (*TNode).drawTree: depth strictly
above the call depth, at most maxDepth when maxDepth is nonzero, and
orientation alternating with depth starting from the call orientation. -/
lemma drawTree_mem (t : TNode) (o : Orientation) (b : Rectangle) (dep maxD : Int) :
    ∀ d ∈ TNode.drawTree t o b dep maxD,
      dep + 1 ≤ d.depth ∧ (maxD ≠ 0 → d.depth ≤ maxD) ∧
      d.orientation = if (d.depth - dep) % 2 = 1 then nextOrientationOf o else o := by
  generalize hn : sizeOf t = n
  induction n using Nat.strong_induction_on generalizing t o b dep maxD with
  | _ n IH =>
    intro d hd
    rw [TNode.drawTree] at hd
    split at hd
    · simp at hd
    · rename_i hg
      have haux := drawChildren_mem_aux t.size o b dep maxD hg t.Children
        (fun c hc o2 b2 d2 hd2 => by
          have hlt : sizeOf c < n := hn ▸ sizeOf_lt_of_mem_children hc
          have h := IH (sizeOf c) hlt c o2 b2 (dep + 1) maxD rfl d2 hd2
          exact ⟨by omega, h.2.1, h.2.2⟩) 0 d hd
      exact haux

lemma directCmds_nil (mSize : ℚ) (o : Orientation) (b : Rectangle) (dep maxD : Int)
    (consumed : ℚ) : directCmds [] mSize o b dep maxD consumed = [] := by
  simp [directCmds, drawChildren]

/-- Unfolding step for directCmds: the head command of the loop is the first
child's, and all deeper emissions of the head child are filtered out by their
depth. -/
lemma directCmds_cons (c : TNode) (cs : List TNode) (mSize : ℚ) (o : Orientation)
    (b : Rectangle) (dep maxD : Int) (consumed : ℚ) :
    directCmds (c :: cs) mSize o b dep maxD consumed =
      ⟨c.Name, newBoundOf o b consumed (proportionOf o b mSize c.size),
        nextOrientationOf o, dep + 1⟩
        :: directCmds cs mSize o b dep maxD (consumed + proportionOf o b mSize c.size) := by
  have hsub : ∀ d ∈ TNode.drawTree c (nextOrientationOf o)
      (newBoundOf o b consumed (proportionOf o b mSize c.size)) (dep + 1) maxD,
      ¬(d.depth == dep + 1) = true := by
    intro d hd
    have h := (drawTree_mem c (nextOrientationOf o) _ (dep + 1) maxD d hd).1
    simp only [beq_iff_eq]
    omega
  unfold directCmds
  rw [drawChildren]
  simp only [List.filter_cons, List.filter_append, beq_self_eq_true, if_true,
    List.filter_eq_nil_iff.mpr hsub, List.nil_append]

lemma directCmds_get? (mSize : ℚ) (o : Orientation) (b : Rectangle) (dep maxD : Int) :
    ∀ (cs : List TNode) (i : ℕ) (c : TNode) (consumed : ℚ), cs.get? i = some c →
      (directCmds cs mSize o b dep maxD consumed).get? i =
        some ⟨c.Name, newBoundOf o b (consumed + consumedBefore o b mSize cs i)
          (proportionOf o b mSize c.size), nextOrientationOf o, dep + 1⟩ := by
  intro cs
  induction cs with
  | nil => intro i c consumed h; simp at h
  | cons x rest ih =>
    intro i c consumed h
    cases i with
    | zero =>
      simp only [List.get?] at h
      injection h with h
      subst h
      rw [directCmds_cons]
      simp [consumedBefore]
    | succ n =>
      simp only [List.get?] at h
      rw [directCmds_cons]
      simp only [List.get?]
      rw [ih n c (consumed + proportionOf o b mSize x.size) h]
      simp only [consumedBefore]
      rw [← add_assoc]

lemma consumedBefore_nonneg (o : Orientation) (b : Rectangle) (mSize : ℚ)
    (hm : 0 < mSize) (hL : 0 ≤ bandLength o b) :
    ∀ (cs : List TNode) (i : ℕ), (∀ x ∈ cs, 0 ≤ TNode.size x) →
      0 ≤ consumedBefore o b mSize cs i := by
  intro cs
  induction cs with
  | nil => intro i _; cases i <;> simp [consumedBefore]
  | cons x rest ih =>
    intro i hw
    cases i with
    | zero => simp [consumedBefore]
    | succ n =>
      rw [consumedBefore]
      have h1 := proportionOf_nonneg o b mSize x.size hm (hw x (by simp)) hL
      have h2 := ih n (fun y hy => hw y (List.mem_cons_of_mem x hy))
      linarith

/- Concrete inputs. -/

/-- Parent of aggregated weight 2 (declared 0) with two leaves of weight 1. -/
def tAB : TNode := ⟨"p", 0, [⟨"a", 1, []⟩, ⟨"b", 1, []⟩]⟩

/-- A 1 by 3 parent bound for tAB. -/
def rAB : Rectangle := ⟨⟨0, 0⟩, ⟨1, 3⟩⟩

/-- Parent of aggregated weight 50 with three leaves of weights 3, 3, 44. -/
def tABC : TNode := ⟨"p", 0, [⟨"a", 3, []⟩, ⟨"b", 3, []⟩, ⟨"c", 44, []⟩]⟩

/-- A 10 by 5 parent bound for tABC. -/
def rABC : Rectangle := ⟨⟨0, 0⟩, ⟨10, 5⟩⟩

/-- Parent with a single leaf child of weight 1. -/
def tD : TNode := ⟨"p", 0, [⟨"a", 1, []⟩]⟩

/-- An 8 by 6 parent bound for tD. -/
def rD : Rectangle := ⟨⟨0, 0⟩, ⟨8, 6⟩⟩

/-- The spec's worked example: root of aggregated weight 5040 with two direct
children of weights 3626 and 1414. -/
def t9 : TNode := ⟨"root", 0, [⟨"a", 3626, []⟩, ⟨"b", 1414, []⟩]⟩

/-- The 800 by 600 canvas of the spec's worked example. -/
def r9 : Rectangle := ⟨⟨0, 0⟩, ⟨800, 600⟩⟩

/-- Internal node with declared Size 5 and one leaf child of Size 3. -/
def t6 : TNode := ⟨"p", 5, [⟨"c", 3, []⟩]⟩

/-- Two-level tree: parent, child, grandchild. -/
def t7 : TNode := ⟨"p", 0, [⟨"c", 1, [⟨"g", 1, []⟩]⟩]⟩

/-- A 4 by 4 parent bound for t7. -/
def r7 : Rectangle := ⟨⟨0, 0⟩, ⟨4, 4⟩⟩

/- Claim theorems. -/

/-- C10: with a negative maxDepth the guard maxDepth != 0 && depth >= maxDepth
already holds at the root call with depth 0, so DrawTreemap emits no node
rectangles at all. -/
theorem c10_negative_maxdepth (tm : TM) (width height : Int) (startPath : Orientation)
    (maxDepth : Int) (h : maxDepth < 0) :
    DrawTreemap tm width height startPath maxDepth = [] := by
  rw [DrawTreemap, drawTree, if_pos (⟨by omega, by omega⟩ : maxDepth ≠ 0 ∧ (0:Int) ≥ maxDepth)]

/-- C10 witness: a concrete tree, canvas and maxDepth -1. -/
theorem c10_negative_maxdepth_witness :
    (-1 : Int) < 0 ∧ DrawTreemap ⟨"r", 1, []⟩ 800 600 Orientation.vertical (-1) = [] :=
  ⟨by norm_num, c10_negative_maxdepth ⟨"r", 1, []⟩ 800 600 Orientation.vertical (-1) (by norm_num)⟩

/-- C4 (amended): with maxDepth = D > 0 every emitted rectangle carries a
stored depth of at most D — nodes at depth exactly D are still emitted by
their parents' calls at depth D-1 — and any call at depth ≥ D returns
immediately, emitting nothing and not recursing. -/
theorem c4_amended (t : TNode) (o : Orientation) (b : Rectangle) (D : Int) (hD : 0 < D) :
    (∀ d ∈ TNode.drawTree t o b 0 D, d.depth ≤ D) ∧
      (∀ (t2 : TNode) (o2 : Orientation) (b2 : Rectangle) (dep : Int),
        D ≤ dep → TNode.drawTree t2 o2 b2 dep D = []) := by
  constructor
  · intro d hd
    exact (drawTree_mem t o b 0 D d hd).2.1 (by omega)
  · intro t2 o2 b2 dep hdep
    rw [TNode.drawTree, if_pos ⟨by omega, by omega⟩]

/-- C4 amended witness: at D = 1 on a concrete tree. -/
theorem c4_amended_witness :
    (0 : Int) < 1 ∧ ∀ d ∈ TNode.drawTree tD Orientation.vertical rD 0 1, d.depth ≤ 1 :=
  ⟨by norm_num, (c4_amended tD Orientation.vertical rD 1 (by norm_num)).1⟩

/-- C4 counterexample: with maxDepth = 1 the root call at depth 0 emits
exactly one rectangle, for its direct child, with stored depth 1 ≥ maxDepth —
refuting that no rectangle is emitted for nodes at depth ≥ maxDepth. -/
theorem c4_counterexample :
    ((TNode.drawTree tD Orientation.vertical rD 0 1).map fun d => d.depth) = [1] ∧
      ¬((1 : Int) < 1) := by
  refine ⟨?_, by norm_num⟩
  simp [tD, rD, TNode.drawTree, drawChildren, TNode.size, sizeList, proportionOf,
    newBoundOf, nextOrientationOf, Rectangle.Dx, Rectangle.Dy,
    show goInt (2⁻¹ : ℚ) = 0 from by norm_num [goInt, Int.floor_eq_iff],
    show goInt ((8 : ℚ) + 2⁻¹) = 8 from by norm_num [goInt, Int.floor_eq_iff]]

/-- C6: the Weight aggregator of the TreeMapper adapter returns a leaf's
intrinsic Size as supplied in the data, and for an internal node (at least
one child) the recursive sum of its children's aggregated weights — the Size
declared on the internal node itself does not enter the result. -/
theorem c6_weight_aggregator (t : TNode) :
    (t.Children = [] → t.Weight = t.Size) ∧
      (t.Children ≠ [] → t.Weight = (t.Children.map TNode.Weight).sum) := by
  cases t with
  | mk nm s cs =>
    cases cs with
    | nil => exact ⟨fun _ => rfl, fun h => absurd rfl h⟩
    | cons c rest =>
      constructor
      · intro h
        simp at h
      · intro _
        simp only [TNode.Weight, TNode.Children, weightList_eq]

/-- C6 witness: the internal node of declared Size 5 with one leaf child of
Size 3 has Weight 3, the sum over its children, with the declared 5
ignored. -/
theorem c6_weight_aggregator_witness :
    t6.Children ≠ [] ∧ t6.Weight = (t6.Children.map TNode.Weight).sum ∧ t6.Weight = 3 :=
  ⟨by simp [t6], (c6_weight_aggregator t6).2 (by simp [t6]),
    by simp [t6, TNode.Weight, weightList]⟩

/-- C7: the orientation flip sends Horizontal to Vertical and Vertical to
Horizontal, and every node emitted below a call sliced with orientation o
carries o flipped once per level: direct children carry flip(o), their
children carry o again, alternating at every depth of the recursion. -/
theorem c7_orientation_alternation (t : TNode) (o : Orientation) (b : Rectangle)
    (dep maxD : Int) :
    (nextOrientationOf Orientation.horizontal = Orientation.vertical ∧
      nextOrientationOf Orientation.vertical = Orientation.horizontal) ∧
      ∀ d ∈ TNode.drawTree t o b dep maxD,
        d.orientation = if (d.depth - dep) % 2 = 1 then nextOrientationOf o else o :=
  ⟨⟨rfl, rfl⟩, fun d hd => (drawTree_mem t o b dep maxD d hd).2.2⟩

/-- C7 witness: in the two-level tree t7 sliced vertically, the grandchild is
emitted at depth 2 with orientation vertical = flip(flip(vertical)). -/
theorem c7_witness :
    (⟨"g", ⟨⟨0, 0⟩, ⟨4, 2⟩⟩, Orientation.vertical, 2⟩ : DrawCmd).orientation =
      (if ((2 : Int) - 0) % 2 = 1 then nextOrientationOf Orientation.vertical
        else Orientation.vertical) :=
  (c7_orientation_alternation t7 Orientation.vertical r7 0 0).2 _ (by
    simp [t7, r7, TNode.drawTree, drawChildren, TNode.size, sizeList, proportionOf,
      newBoundOf, nextOrientationOf, Rectangle.Dx, Rectangle.Dy,
      show goInt (2⁻¹ : ℚ) = 0 from by norm_num [goInt, Int.floor_eq_iff],
      show goInt ((4 : ℚ) + 2⁻¹) = 4 from by norm_num [goInt, Int.floor_eq_iff],
      show goInt ((1 + 1)⁻¹ * 4 + 2⁻¹ : ℚ) = 2 from by norm_num [goInt, Int.floor_eq_iff]])

/-- C1 (amended): the i-th direct child command of the layout loop has band
length round(proportion_i) with round x = floor(x + 1/2) — the proportion is
rounded on its own for each child, independently of the cumulative offsets,
and the band lengths need not sum to the parent band length. -/
theorem c1_amended (cs : List TNode) (mSize : ℚ) (o : Orientation) (b : Rectangle)
    (dep maxD : Int) (consumed : ℚ) (i : ℕ) (c : TNode)
    (hc : cs.get? i = some c) (hm : 0 < mSize) (hw : 0 ≤ TNode.size c)
    (hL : 0 ≤ bandLength o b) :
    ((directCmds cs mSize o b dep maxD consumed).get? i).map (fun d => bandLength o d.bound)
      = some (round (proportionOf o b mSize (TNode.size c))) := by
  rw [directCmds_get? mSize o b dep maxD cs i c consumed hc]
  simp only [Option.map_some']
  rw [bandLength_newBoundOf, goInt_round _ (proportionOf_nonneg o b mSize c.size hm hw hL)]

/-- C1 amended witness: the second child of tAB has band length
round(3/2) = 2. -/
theorem c1_amended_witness :
    ([⟨"a", 1, []⟩, ⟨"b", 1, []⟩] : List TNode).get? 1 = some ⟨"b", 1, []⟩ ∧
      ((directCmds [⟨"a", 1, []⟩, ⟨"b", 1, []⟩] 2 Orientation.horizontal rAB 0 0 0).get? 1).map
          (fun d => bandLength Orientation.horizontal d.bound)
        = some (round ((3 : ℚ)/2)) := by
  refine ⟨rfl, ?_⟩
  rw [c1_amended [⟨"a", 1, []⟩, ⟨"b", 1, []⟩] 2 Orientation.horizontal rAB 0 0 0 1
    ⟨"b", 1, []⟩ rfl (by norm_num) (by simp [TNode.size, sizeList])
    (by simp [bandLength, rAB, Rectangle.Dy])]
  norm_num [proportionOf, TNode.size, sizeList, rAB, Rectangle.Dy]

/-- C1 counterexample: two children of weight 1 under a parent of weight 2
over band length 3 get emitted band lengths 2 and 2: each equals
round(proportion) = round(3/2) = 2, the second is not
round(cum_2) - round(cum_1) = round(3) - round(3/2) = 1, and the lengths sum
to 4, overflowing the band length 3. -/
theorem c1_counterexample :
    ((TNode.drawTree tAB Orientation.horizontal rAB 0 0).map fun d => d.bound.Dy) = [2, 2] ∧
      rAB.Dy = 3 ∧ round ((3 : ℚ)) - round ((3 : ℚ)/2) = 1 := by
  refine ⟨?_, by simp [rAB, Rectangle.Dy], ?_⟩
  · simp [tAB, rAB, TNode.drawTree, drawChildren, TNode.size, sizeList, proportionOf,
      newBoundOf, nextOrientationOf, Rectangle.Dx, Rectangle.Dy,
      show goInt (2⁻¹ : ℚ) = 0 from by norm_num [goInt, Int.floor_eq_iff],
      show goInt ((1 + 1)⁻¹ * 3 + 2⁻¹ : ℚ) = 2 from by norm_num [goInt, Int.floor_eq_iff]]
  · rw [show round ((3 : ℚ)) = 3 from by rw [round_eq]; norm_num [Int.floor_eq_iff],
      show round ((3 : ℚ)/2) = 2 from by rw [round_eq]; norm_num [Int.floor_eq_iff]]
    norm_num

/-- C8: each direct child command's rectangle keeps the parent's
unaffected-axis bounds unchanged and places the banding-axis bounds at
[start + round(consumed), start + round(consumed) + round(proportion)] with
round x = floor(x + 1/2), matching the spec's formula for both
orientations. -/
theorem c8_child_bounds (cs : List TNode) (mSize : ℚ) (o : Orientation) (b : Rectangle)
    (dep maxD : Int) (consumed : ℚ) (i : ℕ) (c : TNode)
    (hc : cs.get? i = some c) (hm : 0 < mSize) (hw : ∀ x ∈ cs, 0 ≤ TNode.size x)
    (hL : 0 ≤ bandLength o b) (hcons : 0 ≤ consumed) :
    ((directCmds cs mSize o b dep maxD consumed).get? i).map (fun d => d.bound)
      = some (specChildBound o b (consumed + consumedBefore o b mSize cs i)
          (proportionOf o b mSize (TNode.size c))) := by
  rw [directCmds_get? mSize o b dep maxD cs i c consumed hc]
  simp only [Option.map_some']
  rw [newBoundOf_eq_specChildBound o b _ _
    (add_nonneg hcons (consumedBefore_nonneg o b mSize hm hL cs i hw))
    (proportionOf_nonneg o b mSize c.size hm (hw c (List.get?_mem hc)) hL)]

/-- C8 witness: the second child of tAB under horizontal slicing gets the
rectangle (0, round(3/2)) - (1, round(3/2) + round(3/2)) = (0,2)-(1,4). -/
theorem c8_child_bounds_witness :
    ([⟨"a", 1, []⟩, ⟨"b", 1, []⟩] : List TNode).get? 1 = some ⟨"b", 1, []⟩ ∧
      ((directCmds [⟨"a", 1, []⟩, ⟨"b", 1, []⟩] 2 Orientation.horizontal rAB 0 0 0).get? 1).map
          (fun d => d.bound)
        = some ⟨⟨0, 2⟩, ⟨1, 4⟩⟩ := by
  refine ⟨rfl, ?_⟩
  rw [c8_child_bounds [⟨"a", 1, []⟩, ⟨"b", 1, []⟩] 2 Orientation.horizontal rAB 0 0 0 1
    ⟨"b", 1, []⟩ rfl (by norm_num)
    (by
      intro x hx
      simp only [List.mem_cons, List.not_mem_nil, or_false] at hx
      rcases hx with rfl | rfl <;> simp [TNode.size, sizeList])
    (by simp [bandLength, rAB, Rectangle.Dy]) (by norm_num)]
  simp only [specChildBound, consumedBefore, proportionOf, rAB, Rectangle.Dy, TNode.size,
    sizeList]
  norm_num
  rw [show round ((3 : ℚ)/2) = 2 from by rw [round_eq]; norm_num [Int.floor_eq_iff]]
  norm_num

/-- C2 evaluation at the failing input: parent bound (0,0)-(1,3) of weight 2
with children of weight 1 and 1 sliced horizontally — the second child is
assigned (0,2)-(1,4), whose Max.Y = 4 exceeds the parent's Max.Y = 3, so the
child rectangle is not contained in the parent rectangle. -/
theorem c2_containment_violation :
    ((TNode.drawTree tAB Orientation.horizontal rAB 0 0).map fun d => d.bound)
      = [⟨⟨0, 0⟩, ⟨1, 2⟩⟩, ⟨⟨0, 2⟩, ⟨1, 4⟩⟩] ∧ rAB.Max.Y = 3 ∧ ¬((4 : Int) ≤ 3) := by
  refine ⟨?_, rfl, by norm_num⟩
  simp [tAB, rAB, TNode.drawTree, drawChildren, TNode.size, sizeList, proportionOf,
    newBoundOf, nextOrientationOf, Rectangle.Dx, Rectangle.Dy,
    show goInt (2⁻¹ : ℚ) = 0 from by norm_num [goInt, Int.floor_eq_iff],
    show goInt ((1 + 1)⁻¹ * 3 + 2⁻¹ : ℚ) = 2 from by norm_num [goInt, Int.floor_eq_iff]]

/-- C3 evaluation at the failing input: parent bound (0,0)-(10,5) of weight 50
with children of weights 3, 3, 44 sliced vertically — the second child gets
(1,0)-(2,5) and the third (1,0)-(10,5); both contain the open region
1 < x < 2, 0 < y < 5, so the two sibling rectangles overlap in area. -/
theorem c3_overlap_violation :
    ((TNode.drawTree tABC Orientation.vertical rABC 0 0).map fun d => d.bound)
      = [⟨⟨0, 0⟩, ⟨1, 5⟩⟩, ⟨⟨1, 0⟩, ⟨2, 5⟩⟩, ⟨⟨1, 0⟩, ⟨10, 5⟩⟩] := by
  simp [tABC, rABC, TNode.drawTree, drawChildren, TNode.size, sizeList, proportionOf,
    newBoundOf, nextOrientationOf, Rectangle.Dx, Rectangle.Dy,
    show goInt (2⁻¹ : ℚ) = 0 from by norm_num [goInt, Int.floor_eq_iff],
    show goInt (3 / (3 + (3 + 44)) * 10 + 2⁻¹ : ℚ) = 1 from by
      norm_num [goInt, Int.floor_eq_iff],
    show goInt (3 / (3 + (3 + 44)) * 10 + 3 / (3 + (3 + 44)) * 10 + 2⁻¹ : ℚ) = 1 from by
      norm_num [goInt, Int.floor_eq_iff],
    show goInt (44 / (3 + (3 + 44)) * 10 + 2⁻¹ : ℚ) = 9 from by
      norm_num [goInt, Int.floor_eq_iff]]

/-- C9: the spec's worked example — weights 3626 and 1414 under total 5040
sliced vertically over width 800 — yields emitted child widths 576 and 224,
which sum exactly to 800. -/
theorem c9_example :
    ((TNode.drawTree t9 Orientation.vertical r9 0 0).map fun d => d.bound.Dx) = [576, 224] ∧
      (576 : Int) + 224 = 800 ∧ r9.Dx = 800 := by
  refine ⟨?_, by norm_num, rfl⟩
  simp [t9, r9, TNode.drawTree, drawChildren, TNode.size, sizeList, proportionOf,
    newBoundOf, nextOrientationOf, Rectangle.Dx, Rectangle.Dy,
    show goInt (2⁻¹ : ℚ) = 0 from by norm_num [goInt, Int.floor_eq_iff],
    show goInt (3626 / (3626 + 1414) * 800 + 2⁻¹ : ℚ) = 576 from by
      norm_num [goInt, Int.floor_eq_iff],
    show goInt (1414 / (3626 + 1414) * 800 + 2⁻¹ : ℚ) = 224 from by
      norm_num [goInt, Int.floor_eq_iff]]

end Treemap
